import Mathlib

/-!
Verification of the tag-resolution and rollout-supervision core of
kubectl-setimg against its specification.

The Go sources are shallowly embedded: pure computations become Lean
functions; every call to an external collaborator (the registry SDKs,
the Kubernetes API, the terminal UI) is an oracle carried in a "world"
structure; Go's `sort.Slice` — whose output order among elements that
compare equal is left unspecified by its contract ("The sort is not
guaranteed to be stable") — is embedded as a relation on lists, so each
provider's `ListTagsWithInfo` is a relation between a world and the set
of results the code may return.  `time.Time` values are embedded as
`Nat` ticks on an absolute scale whose zero is Go's zero `time.Time`
(so `t.IsZero()` is `t = 0` and `a.After(b)` is `b < a`);
`time.Unix(0, 0)` is the positive constant `unixEpochTicks`.
-/

/-! ## String helpers (Go `strings.Contains`, `strings.Count`, `<` on strings) -/

/-- `isPre pat l` is true when `pat` is a leading segment of `l`. -/
def isPre : List Char → List Char → Bool
  | [], _ => true
  | _ :: _, [] => false
  | p :: ps, c :: cs => p == c && isPre ps cs

/-- `listHasSub pat l` is true when `pat` occurs contiguously inside `l`. -/
def listHasSub (pat : List Char) : List Char → Bool
  | [] => pat.isEmpty
  | c :: cs => isPre pat (c :: cs) || listHasSub pat cs

/-- Go `strings.Contains s pat`. -/
def strContains (s pat : String) : Bool :=
  listHasSub pat.data s.data

/-- Go `strings.Count s c` for a one-character separator `c`. -/
def countChar (c : Char) (s : String) : Nat :=
  s.data.count c

/-- Lexicographic `≤` on character lists: Go's byte-wise string order
(UTF-8 byte order coincides with code-point order). -/
def lcLe : List Char → List Char → Bool
  | [], _ => true
  | _ :: _, [] => false
  | a :: as, b :: bs => if a < b then true else if b < a then false else lcLe as bs

/-- Go's `s <= t` on strings. -/
def strLe (s t : String) : Bool := lcLe s.data t.data

/-- Insert into a `le`-sorted list, keeping it sorted. -/
def insertSorted (le : α → α → Bool) (a : α) : List α → List α
  | [] => [a]
  | b :: bs => if le a b then a :: b :: bs else b :: insertSorted le a bs

/-- Insertion sort by a boolean comparison. -/
def sortByLe (le : α → α → Bool) : List α → List α
  | [] => []
  | a :: as => insertSorted le a (sortByLe le as)

/-- Go `sort.Strings`: strings in nondecreasing byte order.  (On a totally
ordered type the sorted rearrangement of a list is unique, so Go's
unstable sort is a deterministic function here.) -/
def sortStrings (tags : List String) : List String := sortByLe strLe tags

theorem isPre_append (pat rest : List Char) : isPre pat (pat ++ rest) = true := by
  induction pat with
  | nil => rfl
  | cons p ps ih => simp [isPre, ih]

theorem listHasSub_append (pat b : List Char) :
    listHasSub pat (pat ++ b) = true := by
  cases pat with
  | nil => cases b <;> simp [listHasSub, isPre]
  | cons p ps =>
    have h := isPre_append (p :: ps) b
    simp only [List.cons_append] at h
    simp [listHasSub, List.cons_append, h]

theorem listHasSub_of_append (pat a b : List Char) :
    listHasSub pat (a ++ (pat ++ b)) = true := by
  induction a with
  | nil => simpa using listHasSub_append pat b
  | cons c cs ih =>
    show (isPre pat (c :: (cs ++ (pat ++ b))) || listHasSub pat (cs ++ (pat ++ b))) = true
    rw [ih, Bool.or_true]

theorem lcLe_total (a b : List Char) : lcLe a b = true ∨ lcLe b a = true := by
  induction a generalizing b with
  | nil => exact .inl rfl
  | cons x xs ih =>
    cases b with
    | nil => exact .inr rfl
    | cons y ys =>
      by_cases hxy : x < y
      · left; simp [lcLe, hxy]
      · by_cases hyx : y < x
        · right; simp [lcLe, hyx, asymm hyx]
        · rcases ih ys with h | h
          · left; simp [lcLe, hxy, hyx, h]
          · right; simp [lcLe, hxy, hyx, h]

theorem lcLe_trans (a : List Char) : ∀ b c, lcLe a b = true →
    lcLe b c = true → lcLe a c = true := by
  induction a with
  | nil => intro _ _ _ _; rfl
  | cons x xs ih =>
    intro b c hab hbc
    cases b with
    | nil => simp [lcLe] at hab
    | cons y ys =>
      cases c with
      | nil => simp [lcLe] at hbc
      | cons z zs =>
        rcases lt_trichotomy x y with hxy | rfl | hxy
        · rcases lt_trichotomy y z with hyz | rfl | hyz
          · simp [lcLe, lt_trans hxy hyz]
          · simp [lcLe, hxy]
          · simp [lcLe, asymm hyz, hyz] at hbc
        · rcases lt_trichotomy x z with hxz | rfl | hxz
          · simp [lcLe, hxz]
          · simp only [lcLe, lt_irrefl, if_false] at hab hbc ⊢
            exact ih _ _ hab hbc
          · simp [lcLe, asymm hxz, hxz] at hbc
        · simp [lcLe, asymm hxy, hxy] at hab

theorem strLe_total (s t : String) : strLe s t = true ∨ strLe t s = true :=
  lcLe_total s.data t.data

theorem strLe_trans (s t u : String) (h₁ : strLe s t = true) (h₂ : strLe t u = true) :
    strLe s u = true :=
  lcLe_trans s.data t.data u.data h₁ h₂

theorem insertSorted_perm (le : α → α → Bool) (a : α) (l : List α) :
    List.Perm (insertSorted le a l) (a :: l) := by
  induction l with
  | nil => exact .refl _
  | cons b bs ih =>
    by_cases h : le a b = true
    · rw [insertSorted, if_pos h]
    · rw [insertSorted, if_neg h]
      exact (ih.cons b).trans (List.Perm.swap a b bs)

theorem mem_insertSorted (le : α → α → Bool) (a x : α) (l : List α) :
    x ∈ insertSorted le a l ↔ x = a ∨ x ∈ l := by
  simpa using (insertSorted_perm le a l).mem_iff

theorem insertSorted_pairwise (le : α → α → Bool)
    (htotal : ∀ x y, le x y = true ∨ le y x = true)
    (htrans : ∀ x y z, le x y = true → le y z = true → le x z = true)
    (a : α) : ∀ l, l.Pairwise (fun x y => le x y = true) →
    (insertSorted le a l).Pairwise (fun x y => le x y = true) := by
  intro l
  induction l with
  | nil => intro _; simp [insertSorted]
  | cons b bs ih =>
    intro h
    rw [List.pairwise_cons] at h
    obtain ⟨hb, hbs⟩ := h
    by_cases hab : le a b = true
    · rw [insertSorted, if_pos hab]
      refine List.Pairwise.cons ?_ (List.Pairwise.cons hb hbs)
      intro x hx
      rcases List.mem_cons.mp hx with rfl | hx
      · exact hab
      · exact htrans a b x hab (hb x hx)
    · rw [insertSorted, if_neg hab]
      refine List.Pairwise.cons ?_ (ih hbs)
      intro x hx
      rcases (mem_insertSorted le a x bs).mp hx with hxa | hx
      · rw [hxa]
        exact (htotal a b).resolve_left hab
      · exact hb x hx

theorem sortByLe_perm (le : α → α → Bool) (l : List α) :
    List.Perm (sortByLe le l) l := by
  induction l with
  | nil => exact .refl _
  | cons a as ih => exact (insertSorted_perm le a _).trans (ih.cons a)

theorem sortByLe_pairwise (le : α → α → Bool)
    (htotal : ∀ x y, le x y = true ∨ le y x = true)
    (htrans : ∀ x y z, le x y = true → le y z = true → le x z = true) :
    ∀ l : List α, (sortByLe le l).Pairwise (fun x y => le x y = true) := by
  intro l
  induction l with
  | nil => simp [sortByLe]
  | cons a as ih => exact insertSorted_pairwise le htotal htrans a _ ih

/-- Decidable equality on `Except` (for concrete evaluations). -/
instance {ε α : Type} [DecidableEq ε] [DecidableEq α] : DecidableEq (Except ε α)
  | .error a, .error b =>
    if h : a = b then .isTrue (by rw [h]) else .isFalse (by intro c; cases c; exact h rfl)
  | .ok a, .ok b =>
    if h : a = b then .isTrue (by rw [h]) else .isFalse (by intro c; cases c; exact h rfl)
  | .error _, .ok _ => .isFalse (by intro h; cases h)
  | .ok _, .error _ => .isFalse (by intro h; cases h)

/-! ## Registry data model (src/pkg/registry/registry.go) -/

/-- `TagInfo` holds tag name and creation time for sorting
(src/pkg/registry, `type TagInfo struct`). -/
structure TagInfo where
  tag : String
  createdAt : Nat
deriving DecidableEq, Repr

/-- `tagInfos[i].CreatedAt.After(tagInfos[j].CreatedAt)`: the strict
"is newer than" comparison every provider passes to `sort.Slice`. -/
def tagAfter (a b : TagInfo) : Bool := b.createdAt < a.createdAt

/-- `time.Unix(0, 0)` on the absolute tick scale whose zero is the zero
`time.Time` (seconds from year 1 to 1970); only `0 < unixEpochTicks`
matters to the development. -/
def unixEpochTicks : Nat := 62135596800

/-- The contract of Go's `sort.Slice less` (sort/slice.go): the slice is
reordered so that `less` never holds between an element and a later one.
The docs say "The sort is not guaranteed to be stable", so any such
rearrangement is an admissible outcome. -/
def goSortSliceOutcome (less : α → α → Bool) (input output : List α) : Prop :=
  List.Perm output input ∧ output.Pairwise (fun a b => less b a = false)

/-! ## Docker Hub and GCP providers (src/pkg/registry/dockerhub.go, gcp.go)

The two providers' `ListTagsWithInfo` bodies are textually identical up
to the keychain used for authentication; the keychain only influences
the oracle answers, so both are embedded over the same world shape but
as separate definitions mirroring the separate Go functions. -/

/-- The external collaborators a Docker-Hub- or GCP-style listing run
sees. `parseRepo` is the combined result of `name.NewRepository` with
the `name.ParseReference` fallback (error = both failed, carrying the
`ParseReference` error); `remoteList` is `remote.List` on the parsed
repository; `fetch` is the per-tag manifest/config lookup of
`getTagsWithCreationTime` (`none` = that tag's lookup failed and was
logged as a warning; `some t` = config creation time `t`). -/
structure RegistryWorld where
  parseRepo : Except String String
  remoteList : String → Except String (List String)
  fetch : String → Option Nat

/-- One tag's outcome inside `getTagsWithCreationTime`: a failed lookup
is discarded (warning only); a successful one records the config
creation time, substituting `time.Unix(0, 0)` when that time is zero. -/
def fetchedInfo (fetch : String → Option Nat) (tag : String) : Option TagInfo :=
  match fetch tag with
  | none => none
  | some t => some ⟨tag, if t = 0 then unixEpochTicks else t⟩

/-- `getTagsWithCreationTime(repo, tags, keychain)`: at most the first 50
tags are processed; the bounded fan-out collects the successful records
in nondeterministic channel-arrival order; an empty aggregate is the
error `"failed to get creation time for any tags"`. -/
def getTagsWithCreationTime (fetch : String → Option Nat) (tags : List String)
    (out : Except String (List TagInfo)) : Prop :=
  let tagsToProcess := if tags.length > 50 then tags.take 50 else tags
  let succeeded := tagsToProcess.filterMap (fetchedInfo fetch)
  if succeeded.isEmpty then out = .error "failed to get creation time for any tags"
  else ∃ collected, List.Perm collected succeeded ∧ out = .ok collected

/-- The deterministic head of `DockerHubProvider.ListTagsWithInfo`:
repository parsing, `remote.List`, and the empty-tag-list check, with
the error messages the Go code formats. -/
def DockerHubProvider.preEnrich (w : RegistryWorld) (image : String) :
    Except String (List String) :=
  match w.parseRepo with
  | .error e => .error ("failed to parse image reference " ++ image ++ ": " ++ e)
  | .ok repo =>
    match w.remoteList repo with
    | .error e => .error ("failed to list tags for " ++ repo ++ ": " ++ e)
    | .ok tags =>
      if tags.isEmpty then .error ("no tags found for image " ++ repo)
      else .ok tags

/-- `DockerHubProvider.ListTagsWithInfo(image)` as a relation between the
world and the results the code may return: after `preEnrich`, either the
enrichment fails as a whole and the raw tags are sorted alphabetically
with zero creation times, or the enriched records are sorted newest
first by `sort.Slice`; either list is then truncated to 20 entries. -/
def DockerHubProvider.ListTagsWithInfoRel (w : RegistryWorld) (image : String)
    (out : Except String (List TagInfo)) : Prop :=
  match DockerHubProvider.preEnrich w image with
  | .error e => out = .error e
  | .ok tags =>
    ∃ eout, getTagsWithCreationTime w.fetch tags eout ∧
      match eout with
      | .error _ =>
        out = .ok (((sortStrings tags).map (fun t => TagInfo.mk t 0)).take 20)
      | .ok infos =>
        ∃ s, goSortSliceOutcome tagAfter infos s ∧ out = .ok (s.take 20)

/-- `DockerHubProvider.ListTags(image)`: calls `ListTagsWithInfo` and
copies the `Tag` field of each record, propagating any error. -/
def DockerHubProvider.ListTagsRel (w : RegistryWorld) (image : String)
    (out : Except String (List String)) : Prop :=
  ∃ tinfos, DockerHubProvider.ListTagsWithInfoRel w image tinfos ∧
    match tinfos with
    | .error e => out = .error e
    | .ok infos => out = .ok (infos.map TagInfo.tag)

/-- The deterministic head of `GCPProvider.ListTagsWithInfo` (gcp.go);
same shape as the Docker Hub provider, the GCP keychain being part of
the oracle. -/
def GCPProvider.preEnrich (w : RegistryWorld) (image : String) :
    Except String (List String) :=
  match w.parseRepo with
  | .error e => .error ("failed to parse image reference " ++ image ++ ": " ++ e)
  | .ok repo =>
    match w.remoteList repo with
    | .error e => .error ("failed to list tags for " ++ repo ++ ": " ++ e)
    | .ok tags =>
      if tags.isEmpty then .error ("no tags found for image " ++ repo)
      else .ok tags

/-- `GCPProvider.ListTagsWithInfo(image)` (gcp.go). -/
def GCPProvider.ListTagsWithInfoRel (w : RegistryWorld) (image : String)
    (out : Except String (List TagInfo)) : Prop :=
  match GCPProvider.preEnrich w image with
  | .error e => out = .error e
  | .ok tags =>
    ∃ eout, getTagsWithCreationTime w.fetch tags eout ∧
      match eout with
      | .error _ =>
        out = .ok (((sortStrings tags).map (fun t => TagInfo.mk t 0)).take 20)
      | .ok infos =>
        ∃ s, goSortSliceOutcome tagAfter infos s ∧ out = .ok (s.take 20)

/-- `GCPProvider.ListTags(image)` (gcp.go). -/
def GCPProvider.ListTagsRel (w : RegistryWorld) (image : String)
    (out : Except String (List String)) : Prop :=
  ∃ tinfos, GCPProvider.ListTagsWithInfoRel w image tinfos ∧
    match tinfos with
    | .error e => out = .error e
    | .ok infos => out = .ok (infos.map TagInfo.tag)

/-! ## AWS ECR provider (src/pkg/registry/aws.go, in dockerhub.go's file group) -/

/-- Consume an expected literal from the front of `s`; `none` when `s`
does not start with it. -/
def stripLit : List Char → List Char → Option (List Char)
  | [], s => some s
  | _ :: _, [] => none
  | p :: ps, c :: cs => if c = p then stripLit ps cs else none

/-- The character class `[^.]` of the ECR expression. -/
def nonDot (c : Char) : Bool := !(c == '.')

/-- The character class `[^:]` of the ECR expression. -/
def nonColon (c : Char) : Bool := !(c == ':')

/-- The anchored Go regular expression
`^(\d+)\.dkr\.ecr\.([^.]+)\.amazonaws\.com\/([^:]+)(?::(.+))?$`
of `parseECRImage`, as a deterministic parser over the characters.
Greedy matching is forced here: `\d+` can only end where a non-digit
follows (which must be the literal `.`), `[^.]+` where a `.` follows,
and `[^:]+` where a `:` or the end follows, so no backtracking arises.
`.` in the optional tag group matches any character but a newline, and
`$` requires the whole string to be consumed. Returns the `region` and
`repository` capture groups. -/
def ecrMatch (cs : List Char) : Option (List Char × List Char) :=
  let acct := cs.takeWhile Char.isDigit
  let rest1 := cs.dropWhile Char.isDigit
  if acct.isEmpty then none else
  match stripLit ".dkr.ecr.".data rest1 with
  | none => none
  | some rest2 =>
    let region := rest2.takeWhile nonDot
    let rest3 := rest2.dropWhile nonDot
    if region.isEmpty then none else
    match stripLit ".amazonaws.com/".data rest3 with
    | none => none
    | some rest4 =>
      let repo := rest4.takeWhile nonColon
      let rest5 := rest4.dropWhile nonColon
      if repo.isEmpty then none else
      match rest5 with
      | [] => some (region, repo)
      | _ :: tagChars =>
        if tagChars.isEmpty || tagChars.contains '\n' then none
        else some (region, repo)

/-- `AWSProvider.parseECRImage(image)`: the regular-expression match plus
the (unreachable on success) emptiness re-check the Go code performs on
the captured region and repository. -/
def parseECRImage (image : String) : Except String (String × String) :=
  match ecrMatch image.data with
  | none =>
    .error ("invalid ECR image format: " ++ image ++
      ". Expected format: <account-id>.dkr.ecr.<region>.amazonaws.com/<repository>[:tag]")
  | some (region, repo) =>
    if region.isEmpty || repo.isEmpty then
      .error ("failed to extract region or repository from ECR image: " ++ image)
    else .ok (⟨region⟩, ⟨repo⟩)

/-- `AWSProvider.SupportsImage(image)`: a plain substring test for
`".dkr.ecr."` and `".amazonaws.com"`. -/
def AWSProvider.SupportsImage (image : String) : Bool :=
  strContains image ".dkr.ecr." && strContains image ".amazonaws.com"

/-- One entry of ECR `DescribeImages` output: the tags of one image and
its optional push time (`ImagePushedAt`, `none` = nil pointer). -/
structure ImageDetail where
  imageTags : List String
  imagePushedAt : Option Nat
deriving DecidableEq, Repr

/-- The external collaborators of `AWSProvider.ListTagsWithInfo`:
`loadConfig` is the error of `config.LoadDefaultConfig` (if any), `pages`
the successive answers of the `DescribeImages` paginator for the parsed
repository, and `now` the clock value used when an image has no push
time. -/
structure ECRWorld where
  loadConfig : Option String
  pages : List (Except String (List ImageDetail))
  now : Nat

/-- The pagination loop: append each page's image details, stop on the
first page error, after a page that reaches 100 accumulated details, or
at the paginator's natural end. -/
def collectImageDetails : List (Except String (List ImageDetail)) →
    List ImageDetail → Except String (List ImageDetail)
  | [], acc => .ok acc
  | .error e :: _, _ => .error e
  | .ok ds :: rest, acc =>
    let acc' := acc ++ ds
    if acc'.length ≥ 100 then .ok acc' else collectImageDetails rest acc'

/-- The record-building loop of `AWSProvider.ListTagsWithInfo`: images
without tags are skipped, empty tag strings are skipped, and each
remaining tag gets the image's push time, falling back to `now`. -/
def ecrTagInfos (now : Nat) (details : List ImageDetail) : List TagInfo :=
  details.flatMap fun d =>
    if d.imageTags.isEmpty then []
    else d.imageTags.filterMap fun t =>
      if t = "" then none
      else some ⟨t, d.imagePushedAt.getD now⟩

/-- The deterministic head of `AWSProvider.ListTagsWithInfo`: parse the
reference, load the AWS config, run the paginator, build the records,
and fail on an empty record list. -/
def AWSProvider.preSortTagInfos (w : ECRWorld) (image : String) :
    Except String (List TagInfo) :=
  match parseECRImage image with
  | .error e => .error e
  | .ok (_region, repo) =>
    match w.loadConfig with
    | some e => .error ("failed to load AWS config: " ++ e)
    | none =>
      match collectImageDetails w.pages [] with
      | .error e => .error ("failed to describe images for repository " ++ repo ++ ": " ++ e)
      | .ok details =>
        let infos := ecrTagInfos w.now details
        if infos.isEmpty then .error ("no tagged images found in ECR repository " ++ repo)
        else .ok infos

/-- `AWSProvider.ListTagsWithInfo(image)` as a relation: the records of
`preSortTagInfos` are sorted newest first by `sort.Slice` and truncated
to 20 entries. -/
def AWSProvider.ListTagsWithInfoRel (w : ECRWorld) (image : String)
    (out : Except String (List TagInfo)) : Prop :=
  match AWSProvider.preSortTagInfos w image with
  | .error e => out = .error e
  | .ok infos =>
    ∃ s, goSortSliceOutcome tagAfter infos s ∧ out = .ok (s.take 20)

/-- `AWSProvider.ListTags(image)`: `ListTagsWithInfo` projected to the
`Tag` field, propagating any error. -/
def AWSProvider.ListTagsRel (w : ECRWorld) (image : String)
    (out : Except String (List String)) : Prop :=
  ∃ tinfos, AWSProvider.ListTagsWithInfoRel w image tinfos ∧
    match tinfos with
    | .error e => out = .error e
    | .ok infos => out = .ok (infos.map TagInfo.tag)

/-! ## Reference classification and dispatch (src/pkg/registry/registry.go,
dockerhub.go, gcp.go) -/

/-- `DockerHubProvider.SupportsImage(image)`. `parseHost` is
`name.ParseReference(image)` followed by `.Context().Registry.Name()`
(`none` = the parse failed); `name.DefaultRegistry` is the constant
`"index.docker.io"` of go-containerregistry, kept as the third literal
disjunct exactly as the Go code lists it. -/
def DockerHubProvider.SupportsImage (parseHost : String → Option String)
    (image : String) : Bool :=
  match parseHost image with
  | none => false
  | some registryHost =>
    registryHost == "index.docker.io" ||
    registryHost == "docker.io" ||
    registryHost == "index.docker.io" ||
    !(strContains image "/") ||
    (countChar '/' image == 1 && !(strContains image "."))

/-- `GCPProvider.SupportsImage(image)`. -/
def GCPProvider.SupportsImage (parseHost : String → Option String)
    (image : String) : Bool :=
  match parseHost image with
  | none => false
  | some registryHost =>
    strContains registryHost "gcr.io" || strContains registryHost "pkg.dev"

/-- The three built-in providers, in the order `NewClient` registers
them: AWS ECR first ("check first for specific domain matching"), then
GCP, then Docker Hub ("should be last as it's the most generic"). -/
inductive ProviderKind
  | aws
  | gcp
  | dockerHub
deriving DecidableEq, Repr

/-- The `SupportsImage` predicate of each registered provider. -/
def supportsImage (parseHost : String → Option String) (p : ProviderKind)
    (image : String) : Bool :=
  match p with
  | .aws => AWSProvider.SupportsImage image
  | .gcp => GCPProvider.SupportsImage parseHost image
  | .dockerHub => DockerHubProvider.SupportsImage parseHost image

/-- The provider list built by `registry.NewClient`. -/
def newClientProviders : List ProviderKind := [.aws, .gcp, .dockerHub]

/-- `Client.findProvider(image)`: the first registered provider whose
`SupportsImage` returns true, `none` when no provider matches. -/
def findProvider (parseHost : String → Option String) (image : String) :
    Option ProviderKind :=
  newClientProviders.find? (fun p => supportsImage parseHost p image)

/-! ## Deployment readiness (src/pkg/k8s/k8s.go) -/

/-- The replica counters `CheckDeploymentReadiness` reads from the
deployment object: `*deployment.Spec.Replicas` (desired),
`Status.ReadyReplicas` and `Status.UpdatedReplicas`. -/
structure DeploymentStatus where
  replicas : Nat
  readyReplicas : Nat
  updatedReplicas : Nat
deriving DecidableEq, Repr

/-- One container status of a pod: its restart count and, when the
container is in a waiting state, the waiting reason. -/
structure ContainerStatus where
  name : String
  restartCount : Nat
  waitingReason : Option String
deriving DecidableEq, Repr

/-- One pod as the readiness check reads it. -/
structure PodStatus where
  name : String
  phase : String
  containerStatuses : List ContainerStatus
deriving DecidableEq, Repr

/-- The per-container failure checks of `CheckDeploymentReadiness`:
restarting too frequently, or waiting with a fatal reason. -/
def containerProblem (podName : String) (c : ContainerStatus) : Option String :=
  if c.restartCount > 3 then
    some ("container " ++ c.name ++ " in pod " ++ podName ++ " is restarting too frequently")
  else
    match c.waitingReason with
    | none => none
    | some reason =>
      if reason = "ImagePullBackOff" ∨ reason = "CrashLoopBackOff" ∨ reason = "ErrImagePull" then
        some ("container " ++ c.name ++ " in pod " ++ podName ++ " has problem: " ++ reason)
      else none

/-- The per-pod failure checks: a failed phase, then the containers in
order. -/
def podProblem (p : PodStatus) : Option String :=
  if p.phase = "Failed" then some ("pod " ++ p.name ++ " failed")
  else p.containerStatuses.findSome? (containerProblem p.name)

/-- `Client.CheckDeploymentReadiness(deploymentName)`. `getDep` is the
deployment `Get` call and `listPods` the label-selector pod listing;
Go's `(bool, error)` pair is embedded as `Except String Bool` (every
`false, err` return carries a non-nil error, every other return a nil
one). Ready needs `ReadyReplicas == *Spec.Replicas` and
`UpdatedReplicas == *Spec.Replicas` together, before any pod is
examined. -/
def checkDeploymentReadiness (getDep : Except String DeploymentStatus)
    (listPods : Except String (List PodStatus)) : Except String Bool :=
  match getDep with
  | .error e => .error e
  | .ok d =>
    if d.readyReplicas = d.replicas ∧ d.updatedReplicas = d.replicas then .ok true
    else
      match listPods with
      | .error e => .error e
      | .ok pods =>
        match pods.findSome? podProblem with
        | some e => .error e
        | none => .ok false

/-! ## The set-image command (src/unnamed/part_001, package cmd) -/

/-- The fields of `SetImageOptions` the patch/rollback path reads. -/
structure SetImageOptions where
  deployment : String
  container : String
  image : String
  watchMode : Bool
  previousImage : String
deriving DecidableEq, Repr

/-- The externally visible calls the patch/rollback path makes, in
order: the `GetCurrentImage` read, each `UpdateContainerImage` patch
(with the image it writes and the error it returns), the
`WatchDeployment` outcome, and each `tui.ConfirmRollback` prompt (with
its message and the user's answer). -/
inductive CmdEvent
  | getImage (result : Except String String)
  | patchImage (image : String) (result : Option String)
  | watchDep (result : Option String)
  | confirm (message : String) (answer : Bool)
deriving DecidableEq, Repr

/-- The external collaborators of the patch/rollback path. -/
structure CmdWorld where
  getCurrentImage : Except String String
  patchResult : String → Option String
  watchResult : Option String
  confirmRollback : Bool

/-- `SetImageOptions.savePreviousImage()`: read the current image of the
selected container into `previousImage`; returns the updated options,
the call trace, and the error result. -/
def savePreviousImage (o : SetImageOptions) (w : CmdWorld) :
    SetImageOptions × List CmdEvent × Except String Unit :=
  match w.getCurrentImage with
  | .error e => (o, [.getImage (.error e)], .error e)
  | .ok img => ({ o with previousImage := img }, [.getImage (.ok img)], .ok ())

/-- `SetImageOptions.rollbackDeployment()`: refuse when no previous image
was saved; show the confirmation prompt when deployment, container and
image are all non-empty, aborting with `"rollback cancelled"` on
decline; then issue the rollback patch. -/
def rollbackDeployment (o : SetImageOptions) (w : CmdWorld) :
    List CmdEvent × Except String Unit :=
  if o.previousImage = "" then ([], .error "no previous image saved for rollback")
  else
    if o.deployment ≠ "" ∧ o.container ≠ "" ∧ o.image ≠ "" then
      let message := "Deployment failed. Rollback container " ++ o.container ++
        " to " ++ o.previousImage ++ "?"
      if w.confirmRollback then
        match w.patchResult o.previousImage with
        | some e =>
          ([.confirm message true, .patchImage o.previousImage (some e)],
            .error ("failed to rollback deployment: " ++ e))
        | none =>
          ([.confirm message true, .patchImage o.previousImage none], .ok ())
      else ([.confirm message false], .error "rollback cancelled")
    else
      match w.patchResult o.previousImage with
      | some e =>
        ([.patchImage o.previousImage (some e)],
          .error ("failed to rollback deployment: " ++ e))
      | none => ([.patchImage o.previousImage none], .ok ())

/-- `SetImageOptions.watchPodsAndRollbackIfNeeded()`: watch the
deployment; on a watch error, roll back. -/
def watchPodsAndRollbackIfNeeded (o : SetImageOptions) (w : CmdWorld) :
    List CmdEvent × Except String Unit :=
  match w.watchResult with
  | none => ([.watchDep none], .ok ())
  | some e =>
    let r := rollbackDeployment o w
    (.watchDep (some e) :: r.1, r.2)

/-- `SetImageOptions.RunWithPatch()`: save the previous image, issue the
image patch, and in watch mode supervise the rollout. -/
def RunWithPatch (o : SetImageOptions) (w : CmdWorld) :
    List CmdEvent × Except String Unit :=
  match savePreviousImage o w with
  | (_, evs, .error e) => (evs, .error e)
  | (o', evs, .ok ()) =>
    match w.patchResult o'.image with
    | some e => (evs ++ [.patchImage o'.image (some e)], .error e)
    | none =>
      if o'.watchMode then
        let r := watchPodsAndRollbackIfNeeded o' w
        (evs ++ [.patchImage o'.image none] ++ r.1, r.2)
      else (evs ++ [.patchImage o'.image none], .ok ())

/-! ## Supporting lemmas about the provider embeddings -/

theorem length_take_le20 (l : List α) : (l.take 20).length ≤ 20 := by
  rw [List.length_take]
  exact min_le_left _ _

theorem take20_ne_nil (l : List α) (h : l ≠ []) : l.take 20 ≠ [] := by
  cases l with
  | nil => exact absurd rfl h
  | cons a as => simp

theorem fetchedInfo_ne_zero (fetch : String → Option Nat) (t : String) (r : TagInfo)
    (h : fetchedInfo fetch t = some r) : r.createdAt ≠ 0 := by
  unfold fetchedInfo at h
  cases hf : fetch t with
  | none => rw [hf] at h; cases h
  | some v =>
    rw [hf] at h
    obtain rfl : TagInfo.mk t (if v = 0 then unixEpochTicks else v) = r := by
      simpa using h
    show (if v = 0 then unixEpochTicks else v) ≠ 0
    by_cases hv : v = 0
    · rw [if_pos hv]
      decide
    · rw [if_neg hv]
      exact hv

theorem getTags_ok_perm (fetch : String → Option Nat) (tags : List String)
    (infos : List TagInfo) (h : getTagsWithCreationTime fetch tags (.ok infos)) :
    List.Perm infos
      ((if tags.length > 50 then tags.take 50 else tags).filterMap (fetchedInfo fetch)) := by
  simp only [getTagsWithCreationTime] at h
  by_cases hc :
      ((if tags.length > 50 then tags.take 50 else tags).filterMap (fetchedInfo fetch)).isEmpty = true
  · rw [if_pos hc] at h
    exact absurd h (by simp)
  · rw [if_neg hc] at h
    obtain ⟨c, hp, he⟩ := h
    obtain rfl : infos = c := by simpa using he
    exact hp

theorem getTags_err_empty (fetch : String → Option Nat) (tags : List String) (e : String)
    (h : getTagsWithCreationTime fetch tags (.error e)) :
    ((if tags.length > 50 then tags.take 50 else tags).filterMap (fetchedInfo fetch)).isEmpty = true := by
  simp only [getTagsWithCreationTime] at h
  by_cases hc :
      ((if tags.length > 50 then tags.take 50 else tags).filterMap (fetchedInfo fetch)).isEmpty = true
  · exact hc
  · rw [if_neg hc] at h
    obtain ⟨c, _, he⟩ := h
    exact absurd he (by simp)

theorem preEnrich_ok (w : RegistryWorld) (image : String) (tags : List String)
    (h : DockerHubProvider.preEnrich w image = .ok tags) :
    tags ≠ [] ∧ ∃ repo, w.parseRepo = .ok repo ∧ w.remoteList repo = .ok tags := by
  unfold DockerHubProvider.preEnrich at h
  split at h
  · simp at h
  · next repo hp =>
    split at h
    · simp at h
    · next tags' hr =>
      split at h
      · simp at h
      · next hne =>
        obtain rfl : tags' = tags := by simpa using h
        exact ⟨by simpa [List.isEmpty_iff] using hne, repo, hp, hr⟩

theorem fallback_list_facts (tags : List String) :
    (∀ r ∈ (((sortStrings tags).map fun t => TagInfo.mk t 0).take 20), r.createdAt = 0) ∧
    (((sortStrings tags).map fun t => TagInfo.mk t 0).take 20).Pairwise
      (fun a b => strLe a.tag b.tag = true) ∧
    (tags ≠ [] → (((sortStrings tags).map fun t => TagInfo.mk t 0).take 20) ≠ []) ∧
    (((sortStrings tags).map fun t => TagInfo.mk t 0).take 20).Pairwise
      (fun a b => tagAfter b a = false) := by
  refine ⟨?_, ?_, ?_, ?_⟩
  · intro r hr
    have hr' : r ∈ (sortStrings tags).map fun t => TagInfo.mk t 0 :=
      (List.take_sublist _ _).subset hr
    rcases List.mem_map.mp hr' with ⟨t, _, rfl⟩
    rfl
  · have hs : (sortStrings tags).Pairwise (fun x y => strLe x y = true) :=
      sortByLe_pairwise strLe strLe_total strLe_trans tags
    have hmapped : ((sortStrings tags).map fun t => TagInfo.mk t 0).Pairwise
        (fun a b => strLe a.tag b.tag = true) := by
      rw [List.pairwise_map]
      exact hs
    exact List.Pairwise.sublist (List.take_sublist _ _) hmapped
  · intro hne
    apply take20_ne_nil
    intro hmap
    apply hne
    have hsnil : sortStrings tags = [] := by simpa using congrArg List.length hmap
    have hperm := sortByLe_perm strLe tags
    rw [sortStrings] at hsnil
    rw [hsnil] at hperm
    exact hperm.symm.eq_nil
  · have hmapped : ((sortStrings tags).map fun t => TagInfo.mk t 0).Pairwise
        (fun a b => tagAfter b a = false) := by
      rw [List.pairwise_map]
      have hs : (sortStrings tags).Pairwise (fun x y => strLe x y = true) :=
        sortByLe_pairwise strLe strLe_total strLe_trans tags
      exact hs.imp (fun _ => by simp [tagAfter])
    exact List.Pairwise.sublist (List.take_sublist _ _) hmapped

theorem sorted_take_facts (infos s : List TagInfo)
    (hsort : goSortSliceOutcome tagAfter infos s) :
    (s.take 20).Pairwise (fun a b => tagAfter b a = false) ∧
    (infos ≠ [] → s.take 20 ≠ []) ∧
    (∀ r ∈ s.take 20, r ∈ infos) := by
  obtain ⟨hperm, hpair⟩ := hsort
  refine ⟨List.Pairwise.sublist (List.take_sublist _ _) hpair, ?_, ?_⟩
  · intro hne
    apply take20_ne_nil
    intro hs
    rw [hs] at hperm
    exact hne hperm.symm.eq_nil
  · intro r hr
    exact hperm.subset ((List.take_sublist _ _).subset hr)

theorem getTags_ok_nonempty (fetch : String → Option Nat) (tags : List String)
    (infos : List TagInfo) (h : getTagsWithCreationTime fetch tags (.ok infos)) :
    ((if tags.length > 50 then tags.take 50 else tags).filterMap (fetchedInfo fetch)).isEmpty = false := by
  simp only [getTagsWithCreationTime] at h
  by_cases hc :
      ((if tags.length > 50 then tags.take 50 else tags).filterMap (fetchedInfo fetch)).isEmpty = true
  · rw [if_pos hc] at h
    exact absurd h (by simp)
  · simpa using hc

theorem hub_ok_facts (w : RegistryWorld) (image : String)
    (out : Except String (List TagInfo)) (l : List TagInfo)
    (hrel : DockerHubProvider.ListTagsWithInfoRel w image out) (hout : out = .ok l) :
    l.length ≤ 20 ∧ l ≠ [] ∧ l.Pairwise (fun a b => tagAfter b a = false) ∧
    ((∀ r ∈ l, r.createdAt = 0) → l.Pairwise (fun a b => strLe a.tag b.tag = true)) := by
  subst hout
  unfold DockerHubProvider.ListTagsWithInfoRel at hrel
  split at hrel
  · simp at hrel
  · next tags hpre =>
    obtain ⟨eout, henr, hm⟩ := hrel
    obtain ⟨htagsne, -⟩ := preEnrich_ok w image tags hpre
    cases eout with
    | error msg =>
      obtain rfl : l = ((sortStrings tags).map fun t => TagInfo.mk t 0).take 20 := by
        simpa using hm
      obtain ⟨hzero, hlex, hne, hafter⟩ := fallback_list_facts tags
      exact ⟨length_take_le20 _, hne htagsne, hafter, fun _ => hlex⟩
    | ok infos =>
      obtain ⟨s, hsort, hm2⟩ := hm
      obtain rfl : l = s.take 20 := by simpa using hm2
      obtain ⟨hafter, hnn, hmem⟩ := sorted_take_facts infos s hsort
      have hinfperm := getTags_ok_perm w.fetch tags infos henr
      have hposmem : ∀ r ∈ s.take 20, r.createdAt ≠ 0 := by
        intro r hr
        have hrin : r ∈ (if tags.length > 50 then tags.take 50 else tags).filterMap
            (fetchedInfo w.fetch) := hinfperm.subset (hmem r hr)
        rcases List.mem_filterMap.mp hrin with ⟨t, -, hft⟩
        exact fetchedInfo_ne_zero w.fetch t r hft
      have hinfosne : infos ≠ [] := by
        intro hnil
        have hemp := getTags_ok_nonempty w.fetch tags infos henr
        rw [hnil] at hinfperm
        rw [hinfperm.symm.eq_nil] at hemp
        simp at hemp
      refine ⟨length_take_le20 _, hnn hinfosne, hafter, ?_⟩
      intro hall
      obtain ⟨hd, tl, hl⟩ := List.exists_cons_of_ne_nil (hnn hinfosne)
      have hhd : hd ∈ s.take 20 := by rw [hl]; exact List.mem_cons_self hd tl
      exact absurd (hall hd hhd) (hposmem hd hhd)

theorem hub_fallback_facts (w : RegistryWorld) (image : String) (tags : List String)
    (out : Except String (List TagInfo)) (l : List TagInfo)
    (hpre : DockerHubProvider.preEnrich w image = .ok tags)
    (hfail : getTagsWithCreationTime w.fetch tags
      (.error "failed to get creation time for any tags"))
    (hrel : DockerHubProvider.ListTagsWithInfoRel w image out) (hout : out = .ok l) :
    (∀ r ∈ l, r.createdAt = 0) ∧ l.Pairwise (fun a b => strLe a.tag b.tag = true) := by
  subst hout
  unfold DockerHubProvider.ListTagsWithInfoRel at hrel
  rw [hpre] at hrel
  obtain ⟨eout, henr, hm⟩ := hrel
  have hempty := getTags_err_empty w.fetch tags _ hfail
  cases eout with
  | ok infos =>
    have hfull := getTags_ok_nonempty w.fetch tags infos henr
    rw [hempty] at hfull
    cases hfull
  | error msg =>
    obtain rfl : l = ((sortStrings tags).map fun t => TagInfo.mk t 0).take 20 := by
      simpa using hm
    obtain ⟨hzero, hlex, -, -⟩ := fallback_list_facts tags
    exact ⟨hzero, hlex⟩

theorem hub_empty_listing (w : RegistryWorld) (image : String)
    (out : Except String (List TagInfo)) (repo : String)
    (hp : w.parseRepo = .ok repo) (hr : w.remoteList repo = .ok ([] : List String))
    (hrel : DockerHubProvider.ListTagsWithInfoRel w image out) :
    out = .error ("no tags found for image " ++ repo) := by
  have hpre : DockerHubProvider.preEnrich w image =
      .error ("no tags found for image " ++ repo) := by
    simp [DockerHubProvider.preEnrich, hp, hr]
  unfold DockerHubProvider.ListTagsWithInfoRel at hrel
  rw [hpre] at hrel
  exact hrel

theorem awsPreSort_ok (w : ECRWorld) (image : String) (infos : List TagInfo)
    (h : AWSProvider.preSortTagInfos w image = .ok infos) : infos ≠ [] := by
  simp only [AWSProvider.preSortTagInfos] at h
  split at h
  · simp at h
  · split at h
    · simp at h
    · split at h
      · simp at h
      · split at h
        · simp at h
        · next hne =>
          obtain rfl : _ = infos := by simpa using h
          simpa [List.isEmpty_iff] using hne

theorem aws_ok_facts (w : ECRWorld) (image : String)
    (out : Except String (List TagInfo)) (l : List TagInfo)
    (hrel : AWSProvider.ListTagsWithInfoRel w image out) (hout : out = .ok l) :
    l.length ≤ 20 ∧ l ≠ [] ∧ l.Pairwise (fun a b => tagAfter b a = false) := by
  subst hout
  unfold AWSProvider.ListTagsWithInfoRel at hrel
  split at hrel
  · simp at hrel
  · next infos hpre =>
    obtain ⟨s, hsort, hm⟩ := hrel
    obtain rfl : l = s.take 20 := by simpa using hm
    obtain ⟨hafter, hnn, -⟩ := sorted_take_facts infos s hsort
    exact ⟨length_take_le20 _, hnn (awsPreSort_ok w image infos hpre), hafter⟩

theorem aws_empty_listing (w : ECRWorld) (image : String)
    (out : Except String (List TagInfo)) (region repo : String)
    (details : List ImageDetail)
    (hparse : parseECRImage image = .ok (region, repo))
    (hcfg : w.loadConfig = none)
    (hcollect : collectImageDetails w.pages [] = .ok details)
    (hempty : ecrTagInfos w.now details = [])
    (hrel : AWSProvider.ListTagsWithInfoRel w image out) :
    out = .error ("no tagged images found in ECR repository " ++ repo) := by
  have hpre : AWSProvider.preSortTagInfos w image =
      .error ("no tagged images found in ECR repository " ++ repo) := by
    unfold AWSProvider.preSortTagInfos
    rw [hparse, hcfg, hcollect]
    simp [hempty]
  unfold AWSProvider.ListTagsWithInfoRel at hrel
  rw [hpre] at hrel
  exact hrel

theorem stripLit_eq (pat : List Char) : ∀ s r, stripLit pat s = some r → s = pat ++ r := by
  induction pat with
  | nil =>
    intro s r h
    obtain rfl : s = r := by simpa [stripLit] using h
    rfl
  | cons p ps ih =>
    intro s r h
    cases s with
    | nil => simp [stripLit] at h
    | cons c cs =>
      simp only [stripLit] at h
      split at h
      · next hcp =>
        rw [List.cons_append, hcp, ih cs r h]
      · simp at h

theorem ecrMatch_sound (cs region repo : List Char)
    (h : ecrMatch cs = some (region, repo)) :
    region ≠ [] ∧ repo ≠ [] ∧
    ∃ acct rest4,
      cs = acct ++ (".dkr.ecr.".data ++ (region ++ (".amazonaws.com/".data ++ rest4))) := by
  simp only [ecrMatch] at h
  split at h
  · simp at h
  · next hacct =>
    split at h
    · simp at h
    · next rest2 hstrip1 =>
      split at h
      · simp at h
      · next hregion =>
        split at h
        · simp at h
        · next rest4 hstrip2 =>
          split at h
          · simp at h
          · next hrepo =>
            have hkey : region = rest2.takeWhile nonDot ∧ repo = rest4.takeWhile nonColon := by
              split at h
              · have := Option.some.inj h
                exact ⟨congrArg Prod.fst this.symm, congrArg Prod.snd this.symm⟩
              · split at h
                · simp at h
                · have := Option.some.inj h
                  exact ⟨congrArg Prod.fst this.symm, congrArg Prod.snd this.symm⟩
            obtain ⟨hreg, hrep⟩ := hkey
            refine ⟨?_, ?_, cs.takeWhile Char.isDigit, rest4, ?_⟩
            · rw [hreg]
              simpa [List.isEmpty_iff] using hregion
            · rw [hrep]
              simpa [List.isEmpty_iff] using hrepo
            · have h1 : cs.takeWhile Char.isDigit ++ cs.dropWhile Char.isDigit = cs :=
                List.takeWhile_append_dropWhile _ _
              have h2 : cs.dropWhile Char.isDigit = ".dkr.ecr.".data ++ rest2 :=
                stripLit_eq _ _ _ hstrip1
              have h3 : rest2.takeWhile nonDot ++ rest2.dropWhile nonDot = rest2 :=
                List.takeWhile_append_dropWhile _ _
              have h4 : rest2.dropWhile nonDot = ".amazonaws.com/".data ++ rest4 :=
                stripLit_eq _ _ _ hstrip2
              calc cs = cs.takeWhile Char.isDigit ++ cs.dropWhile Char.isDigit := h1.symm
                _ = cs.takeWhile Char.isDigit ++ (".dkr.ecr.".data ++ rest2) := by rw [h2]
                _ = cs.takeWhile Char.isDigit ++
                    (".dkr.ecr.".data ++ (rest2.takeWhile nonDot ++ rest2.dropWhile nonDot)) := by
                  rw [h3]
                _ = cs.takeWhile Char.isDigit ++
                    (".dkr.ecr.".data ++ (region ++ (".amazonaws.com/".data ++ rest4))) := by
                  rw [h4, hreg]

theorem parseECR_ok_facts (image region repo : String)
    (h : parseECRImage image = .ok (region, repo)) :
    region ≠ "" ∧ repo ≠ "" ∧ AWSProvider.SupportsImage image = true := by
  unfold parseECRImage at h
  split at h
  · simp at h
  · next region' repo' hmatch =>
    split at h
    · simp at h
    · obtain ⟨rfl, rfl⟩ : (⟨region'⟩ : String) = region ∧ (⟨repo'⟩ : String) = repo := by
        have := Except.ok.inj h
        exact ⟨congrArg Prod.fst this, congrArg Prod.snd this⟩
      obtain ⟨hr, hp, acct, rest4, hdecomp⟩ := ecrMatch_sound image.data region' repo' hmatch
      refine ⟨?_, ?_, ?_⟩
      · intro hcon
        exact hr (by simpa using congrArg String.data hcon)
      · intro hcon
        exact hp (by simpa using congrArg String.data hcon)
      · unfold AWSProvider.SupportsImage strContains
        rw [Bool.and_eq_true]
        constructor
        · rw [hdecomp]
          exact listHasSub_of_append _ _ _
        · rw [hdecomp]
          have hsplit : (".amazonaws.com/" : String).data = ".amazonaws.com".data ++ ['/'] := by
            decide
          rw [hsplit]
          have hshape : acct ++ (".dkr.ecr.".data ++ (region' ++ ((".amazonaws.com".data ++ ['/']) ++ rest4)))
              = (acct ++ (".dkr.ecr.".data ++ region')) ++
                (".amazonaws.com".data ++ ('/' :: rest4)) := by
            simp [List.append_assoc]
          rw [hshape]
          exact listHasSub_of_append _ _ _

theorem aws_parse_error (w : ECRWorld) (image : String)
    (out : Except String (List TagInfo)) (e : String)
    (hp : parseECRImage image = .error e)
    (hrel : AWSProvider.ListTagsWithInfoRel w image out) : out = .error e := by
  have hpre : AWSProvider.preSortTagInfos w image = .error e := by
    unfold AWSProvider.preSortTagInfos
    rw [hp]
  unfold AWSProvider.ListTagsWithInfoRel at hrel
  rw [hpre] at hrel
  exact hrel

/-- `GCPProvider.ListTagsWithInfo` and `DockerHubProvider.ListTagsWithInfo`
have literally the same body (the authentication keychain lives in the
oracle), so the two relations coincide definitionally. -/
theorem gcp_rel_eq_hub :
    GCPProvider.ListTagsWithInfoRel = DockerHubProvider.ListTagsWithInfoRel := rfl

theorem gcp_preEnrich_eq_hub : GCPProvider.preEnrich = DockerHubProvider.preEnrich := rfl

/-! ## The claims -/

/-- **C1**: every `TagInfo` list a provider's `ListTagsWithInfo` returns
successfully has at most 20 entries; it is sorted newest-first by
`CreatedAt` whenever some timestamp is present (nonzero); when the
enrichment wholly failed (Docker Hub and GCP only — the error outcome of
`getTagsWithCreationTime`), the list carries only zero timestamps and is
sorted lexicographically by tag name; for AWS ECR the list is always
sorted newest-first. -/
theorem c1_tag_lists_sorted_and_truncated :
    (∀ (w : RegistryWorld) (image : String) (out : Except String (List TagInfo))
      (l : List TagInfo),
      DockerHubProvider.ListTagsWithInfoRel w image out → out = .ok l →
      l.length ≤ 20 ∧
      ((∃ r ∈ l, r.createdAt ≠ 0) → l.Pairwise (fun a b => b.createdAt ≤ a.createdAt)) ∧
      ((∀ r ∈ l, r.createdAt = 0) → l.Pairwise (fun a b => strLe a.tag b.tag = true)))
    ∧ (∀ (w : RegistryWorld) (image : String) (tags : List String)
      (out : Except String (List TagInfo)) (l : List TagInfo),
      DockerHubProvider.preEnrich w image = .ok tags →
      getTagsWithCreationTime w.fetch tags
        (.error "failed to get creation time for any tags") →
      DockerHubProvider.ListTagsWithInfoRel w image out → out = .ok l →
      (∀ r ∈ l, r.createdAt = 0) ∧ l.Pairwise (fun a b => strLe a.tag b.tag = true))
    ∧ (∀ (w : RegistryWorld) (image : String) (out : Except String (List TagInfo))
      (l : List TagInfo),
      GCPProvider.ListTagsWithInfoRel w image out → out = .ok l →
      l.length ≤ 20 ∧
      ((∃ r ∈ l, r.createdAt ≠ 0) → l.Pairwise (fun a b => b.createdAt ≤ a.createdAt)) ∧
      ((∀ r ∈ l, r.createdAt = 0) → l.Pairwise (fun a b => strLe a.tag b.tag = true)))
    ∧ (∀ (w : RegistryWorld) (image : String) (tags : List String)
      (out : Except String (List TagInfo)) (l : List TagInfo),
      GCPProvider.preEnrich w image = .ok tags →
      getTagsWithCreationTime w.fetch tags
        (.error "failed to get creation time for any tags") →
      GCPProvider.ListTagsWithInfoRel w image out → out = .ok l →
      (∀ r ∈ l, r.createdAt = 0) ∧ l.Pairwise (fun a b => strLe a.tag b.tag = true))
    ∧ (∀ (w : ECRWorld) (image : String) (out : Except String (List TagInfo))
      (l : List TagInfo),
      AWSProvider.ListTagsWithInfoRel w image out → out = .ok l →
      l.length ≤ 20 ∧ l.Pairwise (fun a b => b.createdAt ≤ a.createdAt)) := by
  have hmain : ∀ (w : RegistryWorld) (image : String) (out : Except String (List TagInfo))
      (l : List TagInfo),
      DockerHubProvider.ListTagsWithInfoRel w image out → out = .ok l →
      l.length ≤ 20 ∧
      ((∃ r ∈ l, r.createdAt ≠ 0) → l.Pairwise (fun a b => b.createdAt ≤ a.createdAt)) ∧
      ((∀ r ∈ l, r.createdAt = 0) → l.Pairwise (fun a b => strLe a.tag b.tag = true)) := by
    intro w image out l hrel hout
    obtain ⟨hlen, -, hafter, hlex⟩ := hub_ok_facts w image out l hrel hout
    exact ⟨hlen,
      fun _ => hafter.imp (fun h => Nat.le_of_not_lt (of_decide_eq_false h)), hlex⟩
  refine ⟨hmain, hub_fallback_facts, ?_, ?_, ?_⟩
  · intro w image out l hrel hout
    rw [gcp_rel_eq_hub] at hrel
    exact hmain w image out l hrel hout
  · intro w image tags out l hpre henr hrel hout
    rw [gcp_preEnrich_eq_hub] at hpre
    rw [gcp_rel_eq_hub] at hrel
    exact hub_fallback_facts w image tags out l hpre henr hrel hout
  · intro w image out l hrel hout
    obtain ⟨hlen, -, hafter⟩ := aws_ok_facts w image out l hrel hout
    exact ⟨hlen, hafter.imp (fun h => Nat.le_of_not_lt (of_decide_eq_false h))⟩

/-- Witness for C1: a concrete Docker-Hub run whose per-tag lookups all
fail, so the fallback path returns the alphabetically sorted zero-time
records. -/
theorem c1_witness :
    ([⟨"a", 0⟩, ⟨"b", 0⟩] : List TagInfo).length ≤ 20 ∧
    ((∃ r ∈ ([⟨"a", 0⟩, ⟨"b", 0⟩] : List TagInfo), r.createdAt ≠ 0) →
      ([⟨"a", 0⟩, ⟨"b", 0⟩] : List TagInfo).Pairwise (fun a b => b.createdAt ≤ a.createdAt)) ∧
    ((∀ r ∈ ([⟨"a", 0⟩, ⟨"b", 0⟩] : List TagInfo), r.createdAt = 0) →
      ([⟨"a", 0⟩, ⟨"b", 0⟩] : List TagInfo).Pairwise (fun a b => strLe a.tag b.tag = true)) :=
  c1_tag_lists_sorted_and_truncated.1
    ⟨.ok "library/nginx", fun _ => .ok ["b", "a"], fun _ => none⟩ "nginx"
    (.ok [⟨"a", 0⟩, ⟨"b", 0⟩]) [⟨"a", 0⟩, ⟨"b", 0⟩]
    ⟨.error "failed to get creation time for any tags", rfl, rfl⟩ rfl

/-- 13 ECR image details, one tag each, all pushed at the same instant:
enough records that Go's `sort.Slice` (pdqsort) really does reorder
equal elements (its pivot swap exchanges positions 0 and 6). -/
def c6Details : List ImageDetail :=
  [⟨["t00"], some 5⟩, ⟨["t01"], some 5⟩, ⟨["t02"], some 5⟩, ⟨["t03"], some 5⟩,
   ⟨["t04"], some 5⟩, ⟨["t05"], some 5⟩, ⟨["t06"], some 5⟩, ⟨["t07"], some 5⟩,
   ⟨["t08"], some 5⟩, ⟨["t09"], some 5⟩, ⟨["t10"], some 5⟩, ⟨["t11"], some 5⟩,
   ⟨["t12"], some 5⟩]

def c6World : ECRWorld := ⟨none, [.ok c6Details], 99⟩

def c6Image : String := "123456789012.dkr.ecr.us-west-2.amazonaws.com/my-repo"

/-- The encounter order: the records as `ecrTagInfos` builds them. -/
def c6Encounter : List TagInfo :=
  [⟨"t00", 5⟩, ⟨"t01", 5⟩, ⟨"t02", 5⟩, ⟨"t03", 5⟩, ⟨"t04", 5⟩, ⟨"t05", 5⟩,
   ⟨"t06", 5⟩, ⟨"t07", 5⟩, ⟨"t08", 5⟩, ⟨"t09", 5⟩, ⟨"t10", 5⟩, ⟨"t11", 5⟩,
   ⟨"t12", 5⟩]

/-- The encounter order with positions 0 and 6 exchanged — what Go's
pdqsort actually produces on 13 equal elements. -/
def c6Swapped : List TagInfo :=
  [⟨"t06", 5⟩, ⟨"t01", 5⟩, ⟨"t02", 5⟩, ⟨"t03", 5⟩, ⟨"t04", 5⟩, ⟨"t05", 5⟩,
   ⟨"t00", 5⟩, ⟨"t07", 5⟩, ⟨"t08", 5⟩, ⟨"t09", 5⟩, ⟨"t10", 5⟩, ⟨"t11", 5⟩,
   ⟨"t12", 5⟩]

theorem c6_rel_holds :
    AWSProvider.ListTagsWithInfoRel c6World c6Image (.ok c6Swapped) := by
  have hpre : AWSProvider.preSortTagInfos c6World c6Image = .ok c6Encounter := by
    decide
  unfold AWSProvider.ListTagsWithInfoRel
  rw [hpre]
  exact ⟨c6Swapped, ⟨by decide, by decide⟩, by decide⟩

/-- **C6** counterexample: on a 13-image ECR repository whose records all
share one push timestamp, `sort.Slice`'s contract admits (and Go's
pdqsort produces) an output that does not retain the encounter order of
the equal-timestamp records, so the "stable sort" half of the claim is
false of the code. -/
theorem c6_counterexample :
    AWSProvider.ListTagsWithInfoRel c6World c6Image (.ok c6Swapped) ∧
    ecrTagInfos c6World.now c6Details = c6Encounter ∧
    (∀ r ∈ c6Encounter, r.createdAt = 5) ∧
    c6Swapped ≠ c6Encounter.take 20 :=
  ⟨c6_rel_holds, by decide, by decide, by decide⟩

/-- **C6** as amended: the ordering comparison every provider passes to
`sort.Slice` is the strict `CreatedAt.After`, and every successful
result is ordered so that no record is strictly newer than one before
it; but `sort.Slice` is not stable, so records with equal timestamps may
appear in either relative order. -/
theorem c6_strict_after_not_stable :
    (∀ (w : ECRWorld) (image : String) (out : Except String (List TagInfo))
      (l : List TagInfo), AWSProvider.ListTagsWithInfoRel w image out → out = .ok l →
      l.Pairwise (fun a b => tagAfter b a = false))
    ∧ (∀ (w : RegistryWorld) (image : String) (out : Except String (List TagInfo))
      (l : List TagInfo), DockerHubProvider.ListTagsWithInfoRel w image out → out = .ok l →
      l.Pairwise (fun a b => tagAfter b a = false))
    ∧ (∀ (w : RegistryWorld) (image : String) (out : Except String (List TagInfo))
      (l : List TagInfo), GCPProvider.ListTagsWithInfoRel w image out → out = .ok l →
      l.Pairwise (fun a b => tagAfter b a = false))
    ∧ (∀ a b : TagInfo, tagAfter a b = true ↔ b.createdAt < a.createdAt)
    ∧ (∀ x y : TagInfo, x.createdAt = y.createdAt →
        goSortSliceOutcome tagAfter [x, y] [y, x]) := by
  refine ⟨?_, ?_, ?_, ?_, ?_⟩
  · intro w image out l hrel hout
    exact (aws_ok_facts w image out l hrel hout).2.2
  · intro w image out l hrel hout
    exact (hub_ok_facts w image out l hrel hout).2.2.1
  · intro w image out l hrel hout
    rw [gcp_rel_eq_hub] at hrel
    exact (hub_ok_facts w image out l hrel hout).2.2.1
  · intro a b
    simp [tagAfter]
  · intro x y h
    refine ⟨List.Perm.swap x y [], ?_⟩
    simp [tagAfter, h]

/-- Witness for the amended C6 at the concrete 13-record repository. -/
theorem c6_amended_witness :
    c6Swapped.Pairwise (fun a b => tagAfter b a = false) :=
  c6_strict_after_not_stable.1 c6World c6Image (.ok c6Swapped) c6Swapped c6_rel_holds rfl

/-- **C7**: a listing call that succeeds with zero tags (Docker Hub,
GCP) or zero tagged images (AWS ECR) makes `ListTagsWithInfo` fail with
the "no tags found" / "no tagged images found" error; equivalently,
every successful result is a non-empty list. -/
theorem c7_empty_listing_is_error :
    (∀ (w : RegistryWorld) (image : String) (out : Except String (List TagInfo))
      (l : List TagInfo), DockerHubProvider.ListTagsWithInfoRel w image out →
      out = .ok l → l ≠ [])
    ∧ (∀ (w : RegistryWorld) (image : String) (out : Except String (List TagInfo))
      (repo : String), w.parseRepo = .ok repo → w.remoteList repo = .ok [] →
      DockerHubProvider.ListTagsWithInfoRel w image out →
      out = .error ("no tags found for image " ++ repo))
    ∧ (∀ (w : RegistryWorld) (image : String) (out : Except String (List TagInfo))
      (l : List TagInfo), GCPProvider.ListTagsWithInfoRel w image out →
      out = .ok l → l ≠ [])
    ∧ (∀ (w : RegistryWorld) (image : String) (out : Except String (List TagInfo))
      (repo : String), w.parseRepo = .ok repo → w.remoteList repo = .ok [] →
      GCPProvider.ListTagsWithInfoRel w image out →
      out = .error ("no tags found for image " ++ repo))
    ∧ (∀ (w : ECRWorld) (image : String) (out : Except String (List TagInfo))
      (l : List TagInfo), AWSProvider.ListTagsWithInfoRel w image out →
      out = .ok l → l ≠ [])
    ∧ (∀ (w : ECRWorld) (image : String) (out : Except String (List TagInfo))
      (region repo : String) (details : List ImageDetail),
      parseECRImage image = .ok (region, repo) → w.loadConfig = none →
      collectImageDetails w.pages [] = .ok details →
      ecrTagInfos w.now details = [] →
      AWSProvider.ListTagsWithInfoRel w image out →
      out = .error ("no tagged images found in ECR repository " ++ repo)) := by
  refine ⟨?_, hub_empty_listing, ?_, ?_, ?_, aws_empty_listing⟩
  · intro w image out l hrel hout
    exact (hub_ok_facts w image out l hrel hout).2.1
  · intro w image out l hrel hout
    rw [gcp_rel_eq_hub] at hrel
    exact (hub_ok_facts w image out l hrel hout).2.1
  · intro w image out repo hp hr hrel
    rw [gcp_rel_eq_hub] at hrel
    exact hub_empty_listing w image out repo hp hr hrel
  · intro w image out l hrel hout
    exact (aws_ok_facts w image out l hrel hout).2.1

/-- Witness for C7: the concrete fallback run of the C1 witness produces
a non-empty list. -/
theorem c7_witness : ([⟨"a", 0⟩, ⟨"b", 0⟩] : List TagInfo) ≠ [] :=
  c7_empty_listing_is_error.1
    ⟨.ok "library/nginx", fun _ => .ok ["b", "a"], fun _ => none⟩ "nginx"
    (.ok [⟨"a", 0⟩, ⟨"b", 0⟩]) [⟨"a", 0⟩, ⟨"b", 0⟩]
    ⟨.error "failed to get creation time for any tags", rfl, rfl⟩ rfl

/-- The specification's wording of `listTags`: "`listTags` is defined as
`listTagsWithTime` projected to just the tag field" — the same error,
and on success the `Tag` of each record in order. -/
def specProjectToTags (r : Except String (List TagInfo)) : Except String (List String) :=
  match r with
  | .error e => .error e
  | .ok infos => .ok (infos.map TagInfo.tag)

/-- **C9**: for each provider, the possible outcomes of `ListTags` are
exactly the possible outcomes of `ListTagsWithInfo` pushed through the
spec's projection: same success/failure, same error, same tags in the
same order. -/
theorem c9_listTags_is_projection :
    (∀ (w : RegistryWorld) (image : String) (out : Except String (List String)),
      DockerHubProvider.ListTagsRel w image out ↔
        ∃ t, DockerHubProvider.ListTagsWithInfoRel w image t ∧ out = specProjectToTags t)
    ∧ (∀ (w : RegistryWorld) (image : String) (out : Except String (List String)),
      GCPProvider.ListTagsRel w image out ↔
        ∃ t, GCPProvider.ListTagsWithInfoRel w image t ∧ out = specProjectToTags t)
    ∧ (∀ (w : ECRWorld) (image : String) (out : Except String (List String)),
      AWSProvider.ListTagsRel w image out ↔
        ∃ t, AWSProvider.ListTagsWithInfoRel w image t ∧ out = specProjectToTags t) := by
  refine ⟨?_, ?_, ?_⟩
  · intro w image out
    constructor
    · rintro ⟨t, hrel, hm⟩
      refine ⟨t, hrel, ?_⟩
      cases t <;> simpa [specProjectToTags] using hm
    · rintro ⟨t, hrel, hm⟩
      refine ⟨t, hrel, ?_⟩
      cases t <;> simpa [specProjectToTags] using hm
  · intro w image out
    constructor
    · rintro ⟨t, hrel, hm⟩
      refine ⟨t, hrel, ?_⟩
      cases t <;> simpa [specProjectToTags] using hm
    · rintro ⟨t, hrel, hm⟩
      refine ⟨t, hrel, ?_⟩
      cases t <;> simpa [specProjectToTags] using hm
  · intro w image out
    constructor
    · rintro ⟨t, hrel, hm⟩
      refine ⟨t, hrel, ?_⟩
      cases t <;> simpa [specProjectToTags] using hm
    · rintro ⟨t, hrel, hm⟩
      refine ⟨t, hrel, ?_⟩
      cases t <;> simpa [specProjectToTags] using hm

/-- Witness for C9 at a concrete run: the projected fallback tags. -/
theorem c9_witness :
    DockerHubProvider.ListTagsRel
      ⟨.ok "library/nginx", fun _ => .ok ["b", "a"], fun _ => none⟩ "nginx"
      (.ok ["a", "b"]) :=
  (c9_listTags_is_projection.1
    ⟨.ok "library/nginx", fun _ => .ok ["b", "a"], fun _ => none⟩ "nginx"
    (.ok ["a", "b"])).mpr
    ⟨.ok [⟨"a", 0⟩, ⟨"b", 0⟩],
      ⟨.error "failed to get creation time for any tags", rfl, rfl⟩, rfl⟩

/-- **C2** counterexample: `"123.dkr.ecr.us-west-2.amazonaws.com"` has
no repository component, so it does not match the ECR pattern — yet
`SupportsImage` (a pure substring test) classifies it as supported,
contradicting the claimed "if and only if". -/
theorem c2_counterexample :
    AWSProvider.SupportsImage "123.dkr.ecr.us-west-2.amazonaws.com" = true ∧
    (parseECRImage "123.dkr.ecr.us-west-2.amazonaws.com").toOption = none := by
  exact ⟨by decide, by decide⟩

/-- **C2** as amended: `AWSProvider.SupportsImage` is only the substring
test for `".dkr.ecr."` and `".amazonaws.com"`; the
`<digits>.dkr.ecr.<region>.amazonaws.com/<repo>[:tag]` pattern with
both captures non-empty is enforced by `parseECRImage`, whose success
implies the substring classification, and whose failure makes
`ListTagsWithInfo` fail with the same error (a classification failure,
not a partial match). -/
theorem c2_substring_supports_regex_parse :
    (∀ (image region repo : String), parseECRImage image = .ok (region, repo) →
      region ≠ "" ∧ repo ≠ "" ∧ AWSProvider.SupportsImage image = true)
    ∧ (∀ (w : ECRWorld) (image : String) (out : Except String (List TagInfo))
      (e : String), parseECRImage image = .error e →
      AWSProvider.ListTagsWithInfoRel w image out → out = .error e) :=
  ⟨parseECR_ok_facts, aws_parse_error⟩

/-- Witness for the amended C2 at a concrete well-formed reference. -/
theorem c2_amended_witness :
    ("us-west-2" : String) ≠ "" ∧ ("my-repo" : String) ≠ "" ∧
    AWSProvider.SupportsImage
      "123456789012.dkr.ecr.us-west-2.amazonaws.com/my-repo:latest" = true :=
  c2_substring_supports_regex_parse.1
    "123456789012.dkr.ecr.us-west-2.amazonaws.com/my-repo:latest"
    "us-west-2" "my-repo" (by decide)

/-- **C3**: `findProvider` selects exactly the first provider in the
fixed order AWS ECR, GCP, Docker Hub whose `SupportsImage` is true; in
particular any reference matching the ECR pattern is dispatched to the
AWS provider no matter what the other predicates say. -/
theorem c3_first_match_dispatch (parseHost : String → Option String) (image : String) :
    (∀ region repo, parseECRImage image = .ok (region, repo) →
      findProvider parseHost image = some ProviderKind.aws)
    ∧ (findProvider parseHost image = some ProviderKind.aws ↔
        AWSProvider.SupportsImage image = true)
    ∧ (findProvider parseHost image = some ProviderKind.gcp ↔
        (AWSProvider.SupportsImage image = false ∧
         GCPProvider.SupportsImage parseHost image = true))
    ∧ (findProvider parseHost image = some ProviderKind.dockerHub ↔
        (AWSProvider.SupportsImage image = false ∧
         GCPProvider.SupportsImage parseHost image = false ∧
         DockerHubProvider.SupportsImage parseHost image = true))
    ∧ (findProvider parseHost image = none ↔
        (AWSProvider.SupportsImage image = false ∧
         GCPProvider.SupportsImage parseHost image = false ∧
         DockerHubProvider.SupportsImage parseHost image = false)) := by
  constructor
  · intro region repo hp
    have hsup := (parseECR_ok_facts image region repo hp).2.2
    simp [findProvider, newClientProviders, List.find?, supportsImage, hsup]
  · cases ha : AWSProvider.SupportsImage image <;>
      cases hg : GCPProvider.SupportsImage parseHost image <;>
        cases hd : DockerHubProvider.SupportsImage parseHost image <;>
          simp [findProvider, newClientProviders, List.find?, supportsImage, ha, hg, hd]

/-- Witness for C3: a well-formed ECR reference is dispatched to the AWS
provider (with a host oracle that fails every parse, so only the AWS
substring test can claim it). -/
theorem c3_witness :
    findProvider (fun _ => none)
      "123456789012.dkr.ecr.us-west-2.amazonaws.com/my-repo:latest" =
      some ProviderKind.aws :=
  (c3_first_match_dispatch (fun _ => none)
    "123456789012.dkr.ecr.us-west-2.amazonaws.com/my-repo:latest").1
    "us-west-2" "my-repo" (by decide)

/-- **C4**: with the deployment read succeeding, the readiness check
returns `(true, nil)` exactly when `ReadyReplicas` and
`UpdatedReplicas` both equal the desired replica count; the spec's two
examples are evaluated. -/
theorem c4_ready_iff_both_counts_match :
    (∀ (d : DeploymentStatus) (pods : Except String (List PodStatus)),
      checkDeploymentReadiness (.ok d) pods = .ok true ↔
        (d.readyReplicas = d.replicas ∧ d.updatedReplicas = d.replicas))
    ∧ checkDeploymentReadiness (.ok ⟨3, 3, 2⟩) (.ok []) = .ok false
    ∧ checkDeploymentReadiness (.ok ⟨3, 3, 3⟩) (.ok []) = .ok true := by
  refine ⟨?_, rfl, rfl⟩
  intro d pods
  have hred : checkDeploymentReadiness (.ok d) pods =
      (if d.readyReplicas = d.replicas ∧ d.updatedReplicas = d.replicas then Except.ok true
       else
        match pods with
        | .error e => .error e
        | .ok ps =>
          match ps.findSome? podProblem with
          | some e => .error e
          | none => .ok false) := rfl
  rw [hred]
  constructor
  · intro h
    split at h
    · next hc => exact hc
    · next hc =>
      exfalso
      split at h
      · simp at h
      · split at h
        · simp at h
        · simp at h
  · intro hc
    rw [if_pos hc]

/-- Every `RunWithPatch` trace either stops at a failed read, or starts
with the successful `GetCurrentImage` read followed by the update patch,
and any further patch (the rollback) writes exactly the image that read
returned. -/
theorem runWithPatch_shape (o : SetImageOptions) (w : CmdWorld) :
    (∃ e, (RunWithPatch o w).1 = [CmdEvent.getImage (.error e)]) ∨
    (∃ img0 pres rest, (RunWithPatch o w).1 =
        CmdEvent.getImage (.ok img0) :: CmdEvent.patchImage o.image pres :: rest ∧
      ∀ img res, CmdEvent.patchImage img res ∈ rest → img = img0) := by
  unfold RunWithPatch savePreviousImage
  cases hget : w.getCurrentImage with
  | error e =>
    left
    exact ⟨e, rfl⟩
  | ok img0 =>
    right
    cases hpatch : w.patchResult o.image with
    | some e =>
      refine ⟨img0, some e, [], ?_, by simp⟩
      simp [hpatch]
    | none =>
      by_cases hw : o.watchMode = true
      · cases hwr : w.watchResult with
        | none =>
          refine ⟨img0, none, [CmdEvent.watchDep none], ?_, by simp⟩
          simp [hpatch, hw, watchPodsAndRollbackIfNeeded, hwr]
        | some e =>
          by_cases hprev : img0 = ""
          · refine ⟨img0, none, [CmdEvent.watchDep (some e)], ?_, by simp⟩
            simp [hpatch, hw, watchPodsAndRollbackIfNeeded, hwr, rollbackDeployment, hprev]
          · by_cases hcond : o.deployment ≠ "" ∧ o.container ≠ "" ∧ o.image ≠ ""
            · cases hconf : w.confirmRollback with
              | false =>
                refine ⟨img0, none,
                  [CmdEvent.watchDep (some e),
                   CmdEvent.confirm ("Deployment failed. Rollback container " ++
                     o.container ++ " to " ++ img0 ++ "?") false], ?_, by simp⟩
                simp [hpatch, hw, watchPodsAndRollbackIfNeeded, hwr, rollbackDeployment,
                  hprev, hcond, hconf]
              | true =>
                cases hrb : w.patchResult img0 with
                | some e2 =>
                  refine ⟨img0, none,
                    [CmdEvent.watchDep (some e),
                     CmdEvent.confirm ("Deployment failed. Rollback container " ++
                       o.container ++ " to " ++ img0 ++ "?") true,
                     CmdEvent.patchImage img0 (some e2)], ?_, ?_⟩
                  · simp [hpatch, hw, watchPodsAndRollbackIfNeeded, hwr, rollbackDeployment,
                      hprev, hcond, hconf, hrb]
                  · intro img res hmem
                    simp at hmem
                    exact hmem.1
                | none =>
                  refine ⟨img0, none,
                    [CmdEvent.watchDep (some e),
                     CmdEvent.confirm ("Deployment failed. Rollback container " ++
                       o.container ++ " to " ++ img0 ++ "?") true,
                     CmdEvent.patchImage img0 none], ?_, ?_⟩
                  · simp [hpatch, hw, watchPodsAndRollbackIfNeeded, hwr, rollbackDeployment,
                      hprev, hcond, hconf, hrb]
                  · intro img res hmem
                    simp at hmem
                    exact hmem.1
            · cases hrb : w.patchResult img0 with
              | some e2 =>
                refine ⟨img0, none,
                  [CmdEvent.watchDep (some e), CmdEvent.patchImage img0 (some e2)], ?_, ?_⟩
                · simp [hpatch, hw, watchPodsAndRollbackIfNeeded, hwr, rollbackDeployment,
                    hprev, hcond, hrb]
                · intro img res hmem
                  simp at hmem
                  exact hmem.1
              | none =>
                refine ⟨img0, none,
                  [CmdEvent.watchDep (some e), CmdEvent.patchImage img0 none], ?_, ?_⟩
                · simp [hpatch, hw, watchPodsAndRollbackIfNeeded, hwr, rollbackDeployment,
                    hprev, hcond, hrb]
                · intro img res hmem
                  simp at hmem
                  exact hmem.1
      · refine ⟨img0, none, [], ?_, by simp⟩
        simp [hpatch, hw]

/-- **C5**: in every `RunWithPatch` execution, any container-image
mutation in the trace comes strictly after the `GetCurrentImage` read
that records `previousImage` (the read is the very first call), and the
image it writes is either the requested new image or exactly the image
the read returned — so the rollback patch always reverts to the image
that was current immediately before the update patch. -/
theorem c5_previous_image_before_mutation (o : SetImageOptions) (w : CmdWorld)
    (k : Nat) (img : String) (res : Option String)
    (hk : (RunWithPatch o w).1[k]? = some (CmdEvent.patchImage img res)) :
    ∃ prev, 0 < k ∧ (RunWithPatch o w).1[0]? = some (CmdEvent.getImage (.ok prev)) ∧
      (img = o.image ∨ img = prev) := by
  rcases runWithPatch_shape o w with ⟨e, htr⟩ | ⟨img0, pres, rest, htr, hrest⟩
  · rw [htr] at hk
    rcases k with _ | k
    · simp at hk
    · simp at hk
  · rw [htr] at hk ⊢
    refine ⟨img0, ?_⟩
    rcases k with _ | k
    · simp at hk
    rcases k with _ | k
    · simp only [List.getElem?_cons_succ, List.getElem?_cons_zero] at hk
      have hinj := Option.some.inj hk
      refine ⟨Nat.succ_pos 0, by simp, Or.inl ?_⟩
      cases hinj
      rfl
    · have hk' : rest[k]? = some (CmdEvent.patchImage img res) := by
        simpa using hk
      have hmem : CmdEvent.patchImage img res ∈ rest := List.getElem?_mem hk'
      exact ⟨by omega, by simp, Or.inr (hrest img res hmem)⟩

/-- Witness for C5: the direct-mode run with no watch; its only patch
event sits at index 1, after the read at index 0. -/
theorem c5_witness :
    ∃ prev, 0 < 1 ∧
      (RunWithPatch ⟨"my-app", "web", "nginx:1.21.1", false, ""⟩
        ⟨.ok "nginx:1.20", fun _ => none, none, true⟩).1[0]? =
        some (CmdEvent.getImage (.ok prev)) ∧
      (("nginx:1.21.1" : String) = "nginx:1.21.1" ∨ ("nginx:1.21.1" : String) = prev) :=
  c5_previous_image_before_mutation ⟨"my-app", "web", "nginx:1.21.1", false, ""⟩
    ⟨.ok "nginx:1.20", fun _ => none, none, true⟩ 1 "nginx:1.21.1" none (by decide)

/-- **C8** counterexample: a fully non-interactive invocation
(`kubectl setimg my-app web=nginx:1.21.1 --watch`, so deployment,
container and image were all supplied directly) that reaches rollback
does invoke the confirmation capability — `tui.ConfirmRollback` appears
in the trace — instead of skipping it as the claim states. -/
theorem c8_counterexample :
    rollbackDeployment ⟨"my-app", "web", "nginx:1.21.1", true, "nginx:1.20"⟩
      ⟨.ok "nginx:1.20", fun _ => none, some "timeout", true⟩ =
    ([CmdEvent.confirm "Deployment failed. Rollback container web to nginx:1.20?" true,
      CmdEvent.patchImage "nginx:1.20" none], .ok ()) := by
  decide

/-- **C8** as amended: with a previous image recorded, the rollback
confirmation is asked whenever deployment, container and image are all
non-empty — which includes every fully non-interactive invocation — and
skipped only when one of them is empty; when it is asked and declined,
the outcome is the terminal `"rollback cancelled"` error and no patch is
issued. -/
theorem c8_confirmation_condition (o : SetImageOptions) (w : CmdWorld)
    (hprev : o.previousImage ≠ "") :
    ((o.deployment = "" ∨ o.container = "" ∨ o.image = "") →
      ∀ m a, CmdEvent.confirm m a ∉ (rollbackDeployment o w).1)
    ∧ (o.deployment ≠ "" → o.container ≠ "" → o.image ≠ "" →
      CmdEvent.confirm
        ("Deployment failed. Rollback container " ++ o.container ++ " to " ++
          o.previousImage ++ "?") w.confirmRollback ∈ (rollbackDeployment o w).1)
    ∧ (o.deployment ≠ "" → o.container ≠ "" → o.image ≠ "" → w.confirmRollback = false →
      (rollbackDeployment o w).2 = .error "rollback cancelled" ∧
      ∀ img r, CmdEvent.patchImage img r ∉ (rollbackDeployment o w).1) := by
  refine ⟨?_, ?_, ?_⟩
  · intro hor m a
    have hcond : ¬(o.deployment ≠ "" ∧ o.container ≠ "" ∧ o.image ≠ "") := by tauto
    unfold rollbackDeployment
    rw [if_neg hprev, if_neg hcond]
    cases hrb : w.patchResult o.previousImage <;> simp
  · intro h1 h2 h3
    unfold rollbackDeployment
    rw [if_neg hprev, if_pos ⟨h1, h2, h3⟩]
    cases hcf : w.confirmRollback
    · simp
    · cases hrb : w.patchResult o.previousImage <;> simp
  · intro h1 h2 h3 hcf
    unfold rollbackDeployment
    rw [if_neg hprev, if_pos ⟨h1, h2, h3⟩, hcf]
    exact ⟨by simp, by simp⟩

/-- Witness for the amended C8: the direct-mode invocation with the
confirmation declined ends in the cancelled-rollback error with no
patch event in the trace. -/
theorem c8_amended_witness :
    (rollbackDeployment ⟨"my-app", "web", "nginx:1.21.1", true, "nginx:1.20"⟩
      ⟨.ok "nginx:1.20", fun _ => none, some "timeout", false⟩).2 =
        .error "rollback cancelled" ∧
    ∀ img r, CmdEvent.patchImage img r ∉
      (rollbackDeployment ⟨"my-app", "web", "nginx:1.21.1", true, "nginx:1.20"⟩
        ⟨.ok "nginx:1.20", fun _ => none, some "timeout", false⟩).1 :=
  (c8_confirmation_condition ⟨"my-app", "web", "nginx:1.21.1", true, "nginx:1.20"⟩
    ⟨.ok "nginx:1.20", fun _ => none, some "timeout", false⟩ (by decide)).2.2
    (by decide) (by decide) (by decide) rfl

/-- **C10**: entering `rollbackDeployment` with no recorded previous
image returns the `"no previous image saved for rollback"` error and an
empty call trace — in particular, no image patch is issued. -/
theorem c10_rollback_requires_previous_image (o : SetImageOptions) (w : CmdWorld)
    (hprev : o.previousImage = "") :
    rollbackDeployment o w = ([], .error "no previous image saved for rollback") := by
  unfold rollbackDeployment
  rw [if_pos hprev]

/-- Witness for C10 at a concrete option record with no previous image. -/
theorem c10_witness :
    rollbackDeployment ⟨"my-app", "web", "nginx:1.21.1", true, ""⟩
      ⟨.ok "nginx:1.20", fun _ => none, some "timeout", true⟩ =
    ([], .error "no previous image saved for rollback") :=
  c10_rollback_requires_previous_image ⟨"my-app", "web", "nginx:1.21.1", true, ""⟩
    ⟨.ok "nginx:1.20", fun _ => none, some "timeout", true⟩ rfl
